import Mathlib

/- Verification of the todo-board extension's state-synchronization and
   reordering engine: the webview moveCard function, the message dispatcher
   of the custom editor, the rename guard of the webview, and the
   serialize/parse persistence round trip, all translated from the
   JavaScript source. -/

namespace TodoBoard

/-- A card of the board document: an id and a title. -/
structure Card where
  id : String
  title : String
deriving DecidableEq, Repr

/-- A column of the board document: id, title and an ordered card sequence. -/
structure Column where
  id : String
  title : String
  cards : List Card
deriving DecidableEq, Repr

/-- A board document: an ordered sequence of columns. -/
structure Board where
  columns : List Column
deriving DecidableEq, Repr

/-- Column with the title replaced (models the mutation col.title = t). -/
def Column.withTitle (c : Column) (t : String) : Column := ⟨c.id, t, c.cards⟩

/-- Column with the card sequence replaced (models mutation of col.cards). -/
def Column.withCards (c : Column) (cs : List Card) : Column := ⟨c.id, c.title, cs⟩

/-- Default column used only to make lookups at proven-valid indices total. -/
def emptyColumn : Column := ⟨"", "", []⟩

/-- JS Array.prototype.findIndex, with the -1 result rendered as none. -/
def findIndexP (p : α → Bool) : List α → Option Nat
  | [] => none
  | x :: xs => if p x then some 0 else (findIndexP p xs).map (· + 1)

/-- In-place update of the element at index i (identity when out of range):
    mutation of an element object found inside a JS array. -/
def modifyAt (i : Nat) (f : α → α) : List α → List α
  | [] => []
  | x :: xs =>
    match i with
    | 0 => f x :: xs
    | n + 1 => x :: modifyAt n f xs

/-- JS splice(i, 1): remove the element at index i. -/
def removeAt (i : Nat) : List α → List α
  | [] => []
  | x :: xs =>
    match i with
    | 0 => xs
    | n + 1 => x :: removeAt n xs

/-- JS splice(i, 0, x): insert x at index i, clamped to the end of the list
    exactly as splice clamps an out-of-range start index. -/
def spliceInsert (i : Nat) (x : α) : List α → List α
  | [] => [x]
  | y :: ys =>
    match i with
    | 0 => x :: y :: ys
    | n + 1 => y :: spliceInsert n x ys

/-- Fused findIndex plus splice(idx, 1) on the first element satisfying p:
    yields the index, the removed element, and the remaining list. -/
def removeFirst (p : α → Bool) : List α → Option (Nat × α × List α)
  | [] => none
  | x :: xs =>
    if p x then some (0, x, xs)
    else (removeFirst p xs).map (fun r => (r.1 + 1, r.2.1, x :: r.2.2))

/-- Cards of the column at index i of the board (empty when out of range). -/
def colCardsAt (b : Board) (i : Nat) : List Card :=
  match b.columns.get? i with
  | some c => c.cards
  | none => []

/-- Total number of cards summed over all columns of a list. -/
def sumCards (l : List Column) : Nat := (l.map (fun c => c.cards.length)).sum

/-- Total number of cards on the board. -/
def totalCards (b : Board) : Nat := sumCards b.columns

/- ### Basic lemmas about the list primitives -/

theorem get?_some_lt {l : List α} {i : Nat} {x : α} (h : l.get? i = some x) :
    i < l.length := by
  induction l generalizing i with
  | nil => simp [List.get?] at h
  | cons y ys ih =>
    cases i with
    | zero => simp
    | succ n =>
      simp only [List.get?] at h
      have := ih h
      simp [Nat.succ_lt_succ this]

theorem findIndexP_some {p : α → Bool} {l : List α} {i : Nat}
    (h : findIndexP p l = some i) : ∃ x, l.get? i = some x ∧ p x = true := by
  induction l generalizing i with
  | nil => simp [findIndexP] at h
  | cons y ys ih =>
    by_cases hp : p y
    · simp [findIndexP, hp] at h
      subst h
      exact ⟨y, rfl, hp⟩
    · simp [findIndexP, hp] at h
      obtain ⟨j, hj, hij⟩ := h
      obtain ⟨x, hx, hpx⟩ := ih hj
      exact ⟨x, by simpa [← hij] using hx, hpx⟩

theorem findIndexP_modifyAt {p : α → Bool} {f : α → α}
    (hf : ∀ a, p (f a) = p a) (i : Nat) (l : List α) :
    findIndexP p (modifyAt i f l) = findIndexP p l := by
  induction l generalizing i with
  | nil => simp [modifyAt]
  | cons y ys ih =>
    cases i with
    | zero => simp [modifyAt, findIndexP, hf]
    | succ n => simp [modifyAt, findIndexP, ih]

theorem modifyAt_get?_self (i : Nat) (f : α → α) (l : List α) :
    (modifyAt i f l).get? i = (l.get? i).map f := by
  induction l generalizing i with
  | nil => simp [modifyAt]
  | cons y ys ih =>
    cases i with
    | zero => simp [modifyAt]
    | succ n => simpa [modifyAt] using ih n

theorem modifyAt_get?_ne (i j : Nat) (f : α → α) (l : List α) (h : j ≠ i) :
    (modifyAt i f l).get? j = l.get? j := by
  induction l generalizing i j with
  | nil => simp [modifyAt]
  | cons y ys ih =>
    cases i with
    | zero =>
      cases j with
      | zero => exact absurd rfl h
      | succ m => simp [modifyAt]
    | succ n =>
      cases j with
      | zero => simp [modifyAt]
      | succ m => simpa [modifyAt] using ih n m (fun hc => h (by omega))

theorem modifyAt_length (i : Nat) (f : α → α) (l : List α) :
    (modifyAt i f l).length = l.length := by
  induction l generalizing i with
  | nil => simp [modifyAt]
  | cons y ys ih =>
    cases i with
    | zero => simp [modifyAt]
    | succ n => simpa [modifyAt] using ih n

theorem removeAt_length {i : Nat} {l : List α} (h : i < l.length) :
    (removeAt i l).length + 1 = l.length := by
  induction l generalizing i with
  | nil => simp at h
  | cons y ys ih =>
    cases i with
    | zero => simp [removeAt]
    | succ n =>
      simp only [removeAt, List.length_cons]
      have := ih (by simpa using Nat.lt_of_succ_lt_succ h)
      omega

theorem spliceInsert_length (i : Nat) (x : α) (l : List α) :
    (spliceInsert i x l).length = l.length + 1 := by
  induction l generalizing i with
  | nil => simp [spliceInsert]
  | cons y ys ih =>
    cases i with
    | zero => simp [spliceInsert]
    | succ n => simpa [spliceInsert] using ih n

theorem spliceInsert_get?_self {i : Nat} {l : List α} (x : α) (h : i ≤ l.length) :
    (spliceInsert i x l).get? i = some x := by
  induction l generalizing i with
  | nil =>
    have : i = 0 := by simpa using h
    subst this
    simp [spliceInsert]
  | cons y ys ih =>
    cases i with
    | zero => simp [spliceInsert]
    | succ n => simpa [spliceInsert] using ih (by simpa using Nat.le_of_succ_le_succ h)

theorem spliceInsert_at_end (x : α) (l : List α) :
    spliceInsert l.length x l = l ++ [x] := by
  induction l with
  | nil => simp [spliceInsert]
  | cons y ys ih => simp [spliceInsert, ih]

theorem sublist_spliceInsert (i : Nat) (x : α) (l : List α) :
    l.Sublist (spliceInsert i x l) := by
  induction l generalizing i with
  | nil => simp [spliceInsert]
  | cons y ys ih =>
    cases i with
    | zero => exact (List.Sublist.refl (y :: ys)).cons x
    | succ n => exact (ih n).cons₂ y

theorem mem_spliceInsert (i : Nat) (x : α) (l : List α) :
    x ∈ spliceInsert i x l := by
  induction l generalizing i with
  | nil => simp [spliceInsert]
  | cons y ys ih =>
    cases i with
    | zero => simp [spliceInsert]
    | succ n => simp [spliceInsert, ih n]

theorem removeFirst_spec {p : α → Bool} {l : List α} {i : Nat} {a : α}
    {rest : List α} (h : removeFirst p l = some (i, a, rest)) :
    p a = true ∧ l.get? i = some a ∧ l.length = rest.length + 1 ∧
      rest.Sublist l ∧ i ≤ rest.length := by
  induction l generalizing i rest with
  | nil => simp [removeFirst] at h
  | cons y ys ih =>
    by_cases hp : p y
    · simp [removeFirst, hp] at h
      obtain ⟨hi, ha, hr⟩ := h
      subst hi; subst ha; subst hr
      exact ⟨hp, rfl, by simp, (List.Sublist.refl ys).cons y, by omega⟩
    · simp [removeFirst, hp] at h
      obtain ⟨j, b, rest', hrec, hj, hb, hr⟩ := h
      subst hb
      obtain ⟨hpb, hget, hlen, hsub, hle⟩ := ih hrec
      subst hj
      refine ⟨hpb, by simpa using hget, ?_, ?_, ?_⟩
      · subst hr; simp [hlen]
      · subst hr; exact hsub.cons₂ y
      · subst hr; simpa using Nat.succ_le_succ hle

theorem sumCards_modifyAt {l : List Column} {i : Nat} {c : Column}
    (f : Column → Column) (h : l.get? i = some c) :
    sumCards (modifyAt i f l) + c.cards.length
      = sumCards l + (f c).cards.length := by
  induction l generalizing i with
  | nil => simp [List.get?] at h
  | cons y ys ih =>
    cases i with
    | zero =>
      simp only [List.get?] at h
      cases h
      simp [modifyAt, sumCards]
      omega
    | succ n =>
      simp only [List.get?] at h
      have := ih h
      simp only [modifyAt, sumCards, List.map_cons, List.sum_cons] at *
      omega

/- ### Identifier generation (lines 196-221) -/

/-- Model of title.toLowerCase(): per-character ASCII case mapping. The JS
    full-Unicode mapping can differ on exotic characters, but every such
    character is replaced by a dash in the slug step for ASCII titles. -/
def jsToLower (s : String) : String := String.mk (s.data.map Char.toLower)

/-- Model of title.toLowerCase().replace(/[^a-z0-9]/g, "-"): the normalized
    stem used for generated column ids (line 202). -/
def slugify (s : String) : String :=
  String.mk ((jsToLower s).data.map (fun c =>
    if ('a' ≤ c ∧ c ≤ 'z') ∨ ('0' ≤ c ∧ c ≤ '9') then c else '-'))

/-- Modelled from the spec: "identifiers are generated at creation time by
    combining a normalized slug of the title with a creation timestamp" —
    the shape the spec asserts for every generated identifier. -/
def specGenId (title : String) (now : Nat) : String :=
  slugify title ++ "-" ++ Nat.repr now

/- ### Mutation dispatcher (onDidReceiveMessage body, lines 177-247) -/

/-- Messages of the UI-to-core protocol. For the two create-with-prompt
    messages the value returned by the external prompt collaborator
    (vscode.window.showInputBox) and the Date.now() timestamp are carried
    as explicit arguments of the message. -/
inductive Msg where
  | update (data : Board)
  | deleteColumn (columnId : String)
  | renameColumn (columnId newTitle : String)
  | addColumn (promptResult : Option String) (now : Nat)
  | addCard (columnId : String) (promptResult : Option String) (now : Nat)
  | deleteCard (columnId cardId : String)
  | moveColumn (fromId toId : String)
deriving DecidableEq, Repr

/-- Result of one dispatcher step: the board value after the handler body and
    the dirty flag that decides whether a persistence write is attempted. -/
structure DispatchResult where
  board : Board
  dirty : Bool
deriving DecidableEq, Repr

/-- The message handler body (lines 177-247) after a successful parse of the
    document text. JS truthiness of the prompt result is modelled explicitly:
    a missing value and the empty string are both falsy. -/
def handleMessage (data : Board) (msg : Msg) : DispatchResult :=
  match msg with
  | .update d => ⟨d, true⟩
  | .deleteColumn cid =>
    match findIndexP (fun c => c.id == cid) data.columns with
    | some i => ⟨⟨removeAt i data.columns⟩, true⟩
    | none => ⟨data, false⟩
  | .renameColumn cid newTitle =>
    match findIndexP (fun c => c.id == cid) data.columns with
    | some i => ⟨⟨modifyAt i (fun c => c.withTitle newTitle) data.columns⟩, true⟩
    | none => ⟨data, false⟩
  | .addColumn promptResult now =>
    match promptResult with
    | some title =>
      if title = "" then ⟨data, false⟩
      else
        ⟨⟨data.columns ++ [⟨slugify title ++ "-" ++ Nat.repr now, title, []⟩]⟩,
          true⟩
    | none => ⟨data, false⟩
  | .addCard cid promptResult now =>
    match promptResult with
    | some title =>
      if title = "" then ⟨data, false⟩
      else
        match findIndexP (fun c => c.id == cid) data.columns with
        | some i =>
          ⟨⟨modifyAt i
              (fun c => c.withCards (c.cards ++ [⟨"card-" ++ Nat.repr now, title⟩]))
              data.columns⟩, true⟩
        | none => ⟨data, false⟩
    | none => ⟨data, false⟩
  | .deleteCard cid kid =>
    match findIndexP (fun c => c.id == cid) data.columns with
    | some i =>
      match findIndexP (fun k => k.id == kid) (colCardsAt data i) with
      | some j =>
        ⟨⟨modifyAt i (fun c => c.withCards (removeAt j c.cards)) data.columns⟩,
          true⟩
      | none => ⟨data, false⟩
    | none => ⟨data, false⟩
  | .moveColumn fromId toId =>
    match findIndexP (fun c => c.id == fromId) data.columns,
          findIndexP (fun c => c.id == toId) data.columns with
    | some fi, some ti =>
      if fi ≠ ti then
        let col := (data.columns.get? fi).getD emptyColumn
        ⟨⟨spliceInsert ti col (removeAt fi data.columns)⟩, true⟩
      else ⟨data, false⟩
    | some _, none => ⟨data, false⟩
    | none, _ => ⟨data, false⟩

/-- JS whitespace as trimmed by String.prototype.trim: modelled by the common
    ASCII whitespace characters (the JS set also has further Unicode space
    characters; no claim depends on those). -/
def isJsWs (c : Char) : Bool :=
  c = ' ' || c = '\t' || c = '\n' || c = '\r' || c = '\x0b' || c = '\x0c'

/-- Model of text.trim() from the webview rename handler. -/
def jsTrim (s : String) : String :=
  String.mk (((s.data.dropWhile isJsWs).reverse.dropWhile isJsWs).reverse)

/-- The webview rename guard (saveRename, lines 481-488): trims the edited
    text and posts a rename-column message only when the trimmed text is
    truthy (nonempty) and differs from the current title; otherwise the
    display is reverted and nothing is posted. -/
def saveRename (entered : String) (col : Column) : Option Msg :=
  let newTitle := jsTrim entered
  if newTitle ≠ "" ∧ newTitle ≠ col.title then
    some (.renameColumn col.id newTitle)
  else none

/- ### The webview reorder engine (moveCard, lines 662-681) -/

/-- Result of a moveCard call: the state of the webview board afterwards and
    whether the call ended in a thrown TypeError (dereferencing the cards of
    a column lookup that returned undefined). -/
structure MoveResult where
  threw : Bool
  board : Board
deriving DecidableEq, Repr

/-- The webview moveCard function (lines 662-681). Column lookups use find
    (first object with matching id) and mutate that object in place, which
    positionally is modifyAt at the first matching index. When the source
    column lookup fails the call throws before any mutation; when only the
    destination lookup fails it throws after the removal splice, so the
    removal is observable. An unspecified toIndex (undefined) is none; the
    comparison fromIdx < undefined is false, as in JS. -/
def moveCard (b : Board) (fromId toId cardId : String) (toIndex : Option Nat) :
    MoveResult :=
  match findIndexP (fun c => c.id == fromId) b.columns with
  | none => ⟨true, b⟩
  | some fi =>
    match removeFirst (fun c => c.id == cardId) (colCardsAt b fi) with
    | none => ⟨false, b⟩
    | some (fromIdx, card, rest) =>
      let cols1 := modifyAt fi (fun c => c.withCards rest) b.columns
      let finalIndex : Option Nat :=
        match toIndex with
        | some j => some (if fromId = toId ∧ fromIdx < j then j - 1 else j)
        | none => none
      match findIndexP (fun c => c.id == toId) cols1 with
      | none => ⟨true, ⟨cols1⟩⟩
      | some ti =>
        let toCards := colCardsAt ⟨cols1⟩ ti
        let fin := finalIndex.getD toCards.length
        ⟨false,
          ⟨modifyAt ti (fun c => c.withCards (spliceInsert fin card c.cards))
            cols1⟩⟩

/-- A message whose referenced column or card identifier does not resolve in
    the current board (the validation the dispatcher performs per type). -/
def refMissing (b : Board) (m : Msg) : Prop :=
  match m with
  | .deleteColumn cid => findIndexP (fun c => c.id == cid) b.columns = none
  | .renameColumn cid _ => findIndexP (fun c => c.id == cid) b.columns = none
  | .addCard cid _ _ => findIndexP (fun c => c.id == cid) b.columns = none
  | .deleteCard cid kid =>
    findIndexP (fun c => c.id == cid) b.columns = none ∨
      ∃ i, findIndexP (fun c => c.id == cid) b.columns = some i ∧
        findIndexP (fun k => k.id == kid) (colCardsAt b i) = none
  | .moveColumn fromId toId =>
    findIndexP (fun c => c.id == fromId) b.columns = none ∨
      findIndexP (fun c => c.id == toId) b.columns = none
  | .update _ => False
  | .addColumn _ _ => False

/- ### Computation lemmas for moveCard and column access -/

theorem colCardsAt_modifyAt_self {cols : List Column} {i : Nat} {c : Column}
    (f : Column → Column) (h : cols.get? i = some c) :
    colCardsAt ⟨modifyAt i f cols⟩ i = (f c).cards := by
  simp only [colCardsAt]
  rw [modifyAt_get?_self, h]
  rfl

theorem colCardsAt_modifyAt_ne {cols : List Column} {i j : Nat}
    (f : Column → Column) (h : j ≠ i) :
    colCardsAt ⟨modifyAt i f cols⟩ j = colCardsAt ⟨cols⟩ j := by
  simp only [colCardsAt]
  rw [modifyAt_get?_ne _ _ _ _ h]

theorem colCardsAt_of_get? {b : Board} {i : Nat} {c : Column}
    (h : b.columns.get? i = some c) : colCardsAt b i = c.cards := by
  simp only [colCardsAt]
  rw [h]

theorem withCards_id_pred (toId : String) (cs : List Card) :
    ∀ a : Column, ((a.withCards cs).id == toId) = (a.id == toId) :=
  fun _ => rfl

theorem moveCard_eq_some (b : Board) (fromId toId cardId : String) (j : Nat)
    {fi ti i : Nat} {card : Card} {rest : List Card}
    (hfi : findIndexP (fun c => c.id == fromId) b.columns = some fi)
    (hrm : removeFirst (fun c => c.id == cardId) (colCardsAt b fi)
            = some (i, card, rest))
    (hti : findIndexP (fun c => c.id == toId) b.columns = some ti) :
    moveCard b fromId toId cardId (some j) =
      ⟨false,
        ⟨modifyAt ti
          (fun c => c.withCards (spliceInsert
            (if fromId = toId ∧ i < j then j - 1 else j) card c.cards))
          (modifyAt fi (fun c => c.withCards rest) b.columns)⟩⟩ := by
  have h2 : findIndexP (fun c => c.id == toId)
      (modifyAt fi (fun c => c.withCards rest) b.columns) = some ti := by
    rw [findIndexP_modifyAt (withCards_id_pred toId rest), hti]
  simp only [moveCard, hfi, hrm, h2, Option.getD]

theorem moveCard_eq_none (b : Board) (fromId toId cardId : String)
    {fi ti i : Nat} {card : Card} {rest : List Card}
    (hfi : findIndexP (fun c => c.id == fromId) b.columns = some fi)
    (hrm : removeFirst (fun c => c.id == cardId) (colCardsAt b fi)
            = some (i, card, rest))
    (hti : findIndexP (fun c => c.id == toId) b.columns = some ti) :
    moveCard b fromId toId cardId none =
      ⟨false,
        ⟨modifyAt ti
          (fun c => c.withCards (spliceInsert
            (colCardsAt ⟨modifyAt fi (fun c => c.withCards rest) b.columns⟩
              ti).length card c.cards))
          (modifyAt fi (fun c => c.withCards rest) b.columns)⟩⟩ := by
  have h2 : findIndexP (fun c => c.id == toId)
      (modifyAt fi (fun c => c.withCards rest) b.columns) = some ti := by
    rw [findIndexP_modifyAt (withCards_id_pred toId rest), hti]
  simp only [moveCard, hfi, hrm, h2, Option.getD]

/- ### Claim theorems -/

/-- Claim C1: on a board where the column id resolves (first match at
    position fi) and the card id resolves at index i of that column's card
    sequence, moveCard with source column equal to destination column and a
    requested destination index j with i < j (j a position of the card
    sequence) ends with the moved card at index j - 1, because the
    destination index is decremented after the removal shifts subsequent
    positions left; with an unspecified destination index the card is
    appended to the end of the (post-removal) sequence. -/
theorem moveCard_same_column_reorder
    (b : Board) (colId cardId : String) (fi i : Nat) (card : Card)
    (rest : List Card)
    (hfi : findIndexP (fun c => c.id == colId) b.columns = some fi)
    (hrm : removeFirst (fun c => c.id == cardId) (colCardsAt b fi)
            = some (i, card, rest)) :
    (∀ j, i < j → j ≤ (colCardsAt b fi).length →
      (moveCard b colId colId cardId (some j)).threw = false ∧
      (colCardsAt (moveCard b colId colId cardId (some j)).board fi).get? (j - 1)
        = some card) ∧
    (moveCard b colId colId cardId none).threw = false ∧
    colCardsAt (moveCard b colId colId cardId none).board fi
      = rest ++ [card] := by
  obtain ⟨col, hget, hpcol⟩ := findIndexP_some hfi
  obtain ⟨hpc, hgetc, hlen, hsub, hile⟩ := removeFirst_spec hrm
  have hcards : colCardsAt b fi = col.cards := colCardsAt_of_get? hget
  have hcols1 : (modifyAt fi (fun c => c.withCards rest) b.columns).get? fi
      = some (col.withCards rest) := by
    rw [modifyAt_get?_self, hget]; rfl
  refine ⟨?_, ?_, ?_⟩
  · intro j hij hjle
    rw [moveCard_eq_some b colId colId cardId j hfi hrm hfi]
    refine ⟨rfl, ?_⟩
    have hfin : (if colId = colId ∧ i < j then j - 1 else j) = j - 1 := by
      simp [hij]
    have hcc : colCardsAt
        ⟨modifyAt fi
          (fun c => c.withCards (spliceInsert
            (if colId = colId ∧ i < j then j - 1 else j) card c.cards))
          (modifyAt fi (fun c => c.withCards rest) b.columns)⟩ fi
        = spliceInsert (j - 1) card rest := by
      rw [colCardsAt_modifyAt_self _ hcols1, hfin]
      rfl
    rw [hcc]
    have : j - 1 ≤ rest.length := by omega
    exact spliceInsert_get?_self card this
  · rw [moveCard_eq_none b colId colId cardId hfi hrm hfi]
  · rw [moveCard_eq_none b colId colId cardId hfi hrm hfi]
    have hrest : colCardsAt
        ⟨modifyAt fi (fun c => c.withCards rest) b.columns⟩ fi = rest := by
      rw [colCardsAt_modifyAt_self _ hget]
      rfl
    have hcc : colCardsAt
        ⟨modifyAt fi
          (fun c => c.withCards (spliceInsert
            (colCardsAt ⟨modifyAt fi (fun c => c.withCards rest) b.columns⟩
              fi).length card c.cards))
          (modifyAt fi (fun c => c.withCards rest) b.columns)⟩ fi
        = spliceInsert rest.length card rest := by
      rw [colCardsAt_modifyAt_self _ hcols1, hrest]
      rfl
    rw [hcc, spliceInsert_at_end]

/-- Witness for C1 at a concrete board: move c1 from index 0 to requested
    index 2 inside its own column, ending at index 1; and an unspecified
    index appends to the end. -/
theorem moveCard_same_column_reorder_witness :
    (colCardsAt (moveCard ⟨[⟨"a", "A",
        [⟨"c1", "X"⟩, ⟨"c2", "Y"⟩, ⟨"c3", "Z"⟩]⟩]⟩
        "a" "a" "c1" (some 2)).board 0).get? 1 = some ⟨"c1", "X"⟩ ∧
    colCardsAt (moveCard ⟨[⟨"a", "A",
        [⟨"c1", "X"⟩, ⟨"c2", "Y"⟩, ⟨"c3", "Z"⟩]⟩]⟩
        "a" "a" "c1" none).board 0
      = [⟨"c2", "Y"⟩, ⟨"c3", "Z"⟩] ++ [⟨"c1", "X"⟩] := by
  have h := moveCard_same_column_reorder
    ⟨[⟨"a", "A", [⟨"c1", "X"⟩, ⟨"c2", "Y"⟩, ⟨"c3", "Z"⟩]⟩]⟩
    "a" "c1" 0 0 ⟨"c1", "X"⟩ [⟨"c2", "Y"⟩, ⟨"c3", "Z"⟩]
    (by decide) (by decide)
  exact ⟨(h.1 2 (by decide) (by decide)).2, h.2.2⟩

/-- Claim C2: whenever the source column id, destination column id and card
    id of a moveCard call all resolve, the call does not throw, the total
    card count over the board is unchanged, and the moved card itself — the
    very value carrying its id and title — is a member of the destination
    column afterwards (its id being the requested card id). -/
theorem moveCard_conservation
    (b : Board) (fromId toId cardId : String) (toIndex : Option Nat)
    (fi ti i : Nat) (card : Card) (rest : List Card)
    (hfi : findIndexP (fun c => c.id == fromId) b.columns = some fi)
    (hti : findIndexP (fun c => c.id == toId) b.columns = some ti)
    (hrm : removeFirst (fun c => c.id == cardId) (colCardsAt b fi)
            = some (i, card, rest)) :
    (moveCard b fromId toId cardId toIndex).threw = false ∧
    totalCards (moveCard b fromId toId cardId toIndex).board = totalCards b ∧
    card.id = cardId ∧
    card ∈ colCardsAt (moveCard b fromId toId cardId toIndex).board ti := by
  obtain ⟨col, hget, hpcol⟩ := findIndexP_some hfi
  obtain ⟨hpc, hgetc, hlen, hsub, hile⟩ := removeFirst_spec hrm
  have hcards : colCardsAt b fi = col.cards := colCardsAt_of_get? hget
  have hcols1 : (modifyAt fi (fun c => c.withCards rest) b.columns).get? fi
      = some (col.withCards rest) := by
    rw [modifyAt_get?_self, hget]; rfl
  have hsum1 : sumCards (modifyAt fi (fun c => c.withCards rest) b.columns) + 1
      = sumCards b.columns := by
    have h7 := sumCards_modifyAt (fun c => c.withCards rest) hget
    have : (col.withCards rest).cards.length = rest.length := rfl
    rw [this] at h7
    have hcl : col.cards.length = rest.length + 1 := by
      rw [hcards] at hlen; exact hlen
    omega
  have hmain : ∀ fin : Nat,
      totalCards ⟨modifyAt ti
        (fun c => c.withCards (spliceInsert fin card c.cards))
        (modifyAt fi (fun c => c.withCards rest) b.columns)⟩ = totalCards b ∧
      card ∈ colCardsAt ⟨modifyAt ti
        (fun c => c.withCards (spliceInsert fin card c.cards))
        (modifyAt fi (fun c => c.withCards rest) b.columns)⟩ ti := by
    intro fin
    have hti1 : ∃ c1, (modifyAt fi (fun c => c.withCards rest)
        b.columns).get? ti = some c1 := by
      by_cases hcase : ti = fi
      · subst hcase; exact ⟨col.withCards rest, hcols1⟩
      · obtain ⟨colT, hgetT, _⟩ := findIndexP_some hti
        refine ⟨colT, ?_⟩
        rw [modifyAt_get?_ne _ _ _ _ hcase, hgetT]
    obtain ⟨c1, hc1⟩ := hti1
    constructor
    · have h7 := sumCards_modifyAt
        (fun c => c.withCards (spliceInsert fin card c.cards)) hc1
      have hins : (c1.withCards (spliceInsert fin card c1.cards)).cards.length
          = c1.cards.length + 1 := by
        show (spliceInsert fin card c1.cards).length = c1.cards.length + 1
        exact spliceInsert_length fin card c1.cards
      rw [hins] at h7
      show sumCards (modifyAt ti
        (fun c => c.withCards (spliceInsert fin card c.cards))
        (modifyAt fi (fun c => c.withCards rest) b.columns)) = totalCards b
      have : totalCards b = sumCards b.columns := rfl
      omega
    · have hcc := colCardsAt_modifyAt_self
        (fun c => c.withCards (spliceInsert fin card c.cards)) hc1
      rw [hcc]
      exact mem_spliceInsert fin card c1.cards
  have hid : card.id = cardId := by simpa using hpc
  cases toIndex with
  | some j =>
    rw [moveCard_eq_some b fromId toId cardId j hfi hrm hti]
    exact ⟨rfl, (hmain _).1, hid, (hmain _).2⟩
  | none =>
    rw [moveCard_eq_none b fromId toId cardId hfi hrm hti]
    exact ⟨rfl, (hmain _).1, hid, (hmain _).2⟩

/-- Witness for C2: a concrete cross-column move conserves the total card
    count and carries the moved card, with its id and title, into the
    destination column. -/
theorem moveCard_conservation_witness :
    (moveCard ⟨[⟨"a", "A", [⟨"c1", "X"⟩, ⟨"c2", "Y"⟩]⟩, ⟨"b", "B", []⟩]⟩
        "a" "b" "c2" (some 0)).threw = false ∧
    totalCards (moveCard ⟨[⟨"a", "A", [⟨"c1", "X"⟩, ⟨"c2", "Y"⟩]⟩,
        ⟨"b", "B", []⟩]⟩ "a" "b" "c2" (some 0)).board
      = totalCards ⟨[⟨"a", "A", [⟨"c1", "X"⟩, ⟨"c2", "Y"⟩]⟩, ⟨"b", "B", []⟩]⟩ ∧
    Card.id ⟨"c2", "Y"⟩ = "c2" ∧
    ⟨"c2", "Y"⟩ ∈ colCardsAt (moveCard ⟨[⟨"a", "A",
        [⟨"c1", "X"⟩, ⟨"c2", "Y"⟩]⟩, ⟨"b", "B", []⟩]⟩
        "a" "b" "c2" (some 0)).board 1 :=
  moveCard_conservation ⟨[⟨"a", "A", [⟨"c1", "X"⟩, ⟨"c2", "Y"⟩]⟩,
      ⟨"b", "B", []⟩]⟩ "a" "b" "c2" (some 0) 0 1 1 ⟨"c2", "Y"⟩ [⟨"c1", "X"⟩]
    (by decide) (by decide) (by decide)

/-- Claim C10: whenever all three identifiers of a moveCard call resolve,
    every column other than the (first-match) source and destination columns
    is unchanged; the cards of the source column other than the moved one —
    the list rest left by the removal — appear in both the old and the new
    source column in the same relative order (as a sublist); and for a
    cross-column move the new source column is exactly rest while the
    destination column's previous cards keep their relative order under the
    insertion. -/
theorem moveCard_preserves_others
    (b : Board) (fromId toId cardId : String) (toIndex : Option Nat)
    (fi ti i : Nat) (card : Card) (rest : List Card)
    (hfi : findIndexP (fun c => c.id == fromId) b.columns = some fi)
    (hti : findIndexP (fun c => c.id == toId) b.columns = some ti)
    (hrm : removeFirst (fun c => c.id == cardId) (colCardsAt b fi)
            = some (i, card, rest)) :
    (moveCard b fromId toId cardId toIndex).threw = false ∧
    (∀ k, k ≠ fi → k ≠ ti →
      (moveCard b fromId toId cardId toIndex).board.columns.get? k
        = b.columns.get? k) ∧
    rest.Sublist (colCardsAt b fi) ∧
    rest.Sublist (colCardsAt (moveCard b fromId toId cardId toIndex).board fi) ∧
    (fi ≠ ti →
      colCardsAt (moveCard b fromId toId cardId toIndex).board fi = rest ∧
      (colCardsAt b ti).Sublist
        (colCardsAt (moveCard b fromId toId cardId toIndex).board ti)) := by
  obtain ⟨col, hget, hpcol⟩ := findIndexP_some hfi
  obtain ⟨hpc, hgetc, hlen, hsub, hile⟩ := removeFirst_spec hrm
  have hcols1 : (modifyAt fi (fun c => c.withCards rest) b.columns).get? fi
      = some (col.withCards rest) := by
    rw [modifyAt_get?_self, hget]; rfl
  have hmain : ∀ fin : Nat,
      (∀ k, k ≠ fi → k ≠ ti →
        (modifyAt ti (fun c => c.withCards (spliceInsert fin card c.cards))
          (modifyAt fi (fun c => c.withCards rest) b.columns)).get? k
          = b.columns.get? k) ∧
      rest.Sublist (colCardsAt ⟨modifyAt ti
        (fun c => c.withCards (spliceInsert fin card c.cards))
        (modifyAt fi (fun c => c.withCards rest) b.columns)⟩ fi) ∧
      (fi ≠ ti →
        colCardsAt ⟨modifyAt ti
          (fun c => c.withCards (spliceInsert fin card c.cards))
          (modifyAt fi (fun c => c.withCards rest) b.columns)⟩ fi = rest ∧
        (colCardsAt b ti).Sublist
          (colCardsAt ⟨modifyAt ti
            (fun c => c.withCards (spliceInsert fin card c.cards))
            (modifyAt fi (fun c => c.withCards rest) b.columns)⟩ ti)) := by
    intro fin
    refine ⟨?_, ?_, ?_⟩
    · intro k hkfi hkti
      rw [modifyAt_get?_ne _ _ _ _ hkti, modifyAt_get?_ne _ _ _ _ hkfi]
    · by_cases hcase : fi = ti
      · subst hcase
        have hcc := colCardsAt_modifyAt_self
          (fun c => c.withCards (spliceInsert fin card c.cards)) hcols1
        rw [hcc]
        show rest.Sublist (spliceInsert fin card rest)
        exact sublist_spliceInsert fin card rest
      · have hne : fi ≠ ti := hcase
        rw [colCardsAt_modifyAt_ne _ hne]
        have : colCardsAt ⟨modifyAt fi (fun c => c.withCards rest)
            b.columns⟩ fi = rest := by
          rw [colCardsAt_modifyAt_self _ hget]; rfl
        rw [this]
    · intro hne
      constructor
      · rw [colCardsAt_modifyAt_ne _ hne]
        rw [colCardsAt_modifyAt_self _ hget]; rfl
      · obtain ⟨colT, hgetT, _⟩ := findIndexP_some hti
        have hc1 : (modifyAt fi (fun c => c.withCards rest)
            b.columns).get? ti = some colT := by
          rw [modifyAt_get?_ne _ _ _ _ (Ne.symm hne), hgetT]
        have hcc := colCardsAt_modifyAt_self
          (fun c => c.withCards (spliceInsert fin card c.cards)) hc1
        rw [hcc]
        show (colCardsAt b ti).Sublist (spliceInsert fin card colT.cards)
        rw [colCardsAt_of_get? hgetT]
        exact sublist_spliceInsert fin card colT.cards
  cases toIndex with
  | some j =>
    rw [moveCard_eq_some b fromId toId cardId j hfi hrm hti]
    exact ⟨rfl, (hmain _).1, hsub, (hmain _).2.1, (hmain _).2.2⟩
  | none =>
    rw [moveCard_eq_none b fromId toId cardId hfi hrm hti]
    exact ⟨rfl, (hmain _).1, hsub, (hmain _).2.1, (hmain _).2.2⟩

/-- Witness for C10 at a concrete three-column board: moving c1 from column
    a to column b leaves column x untouched and preserves the order of all
    other cards. -/
theorem moveCard_preserves_others_witness :
    (moveCard ⟨[⟨"a", "A", [⟨"c1", "X"⟩, ⟨"c2", "Y"⟩]⟩, ⟨"b", "B",
        [⟨"d1", "D"⟩]⟩, ⟨"x", "X", []⟩]⟩ "a" "b" "c1" (some 1)).threw = false ∧
    (∀ k, k ≠ 0 → k ≠ 1 →
      (moveCard ⟨[⟨"a", "A", [⟨"c1", "X"⟩, ⟨"c2", "Y"⟩]⟩, ⟨"b", "B",
          [⟨"d1", "D"⟩]⟩, ⟨"x", "X", []⟩]⟩
          "a" "b" "c1" (some 1)).board.columns.get? k
        = (Board.mk [⟨"a", "A", [⟨"c1", "X"⟩, ⟨"c2", "Y"⟩]⟩, ⟨"b", "B",
            [⟨"d1", "D"⟩]⟩, ⟨"x", "X", []⟩]).columns.get? k) ∧
    List.Sublist [⟨"c2", "Y"⟩]
      (colCardsAt ⟨[⟨"a", "A", [⟨"c1", "X"⟩, ⟨"c2", "Y"⟩]⟩, ⟨"b", "B",
        [⟨"d1", "D"⟩]⟩, ⟨"x", "X", []⟩]⟩ 0) ∧
    List.Sublist [⟨"c2", "Y"⟩]
      (colCardsAt (moveCard ⟨[⟨"a", "A", [⟨"c1", "X"⟩, ⟨"c2", "Y"⟩]⟩,
        ⟨"b", "B", [⟨"d1", "D"⟩]⟩, ⟨"x", "X", []⟩]⟩
        "a" "b" "c1" (some 1)).board 0) ∧
    ((0 : Nat) ≠ 1 →
      colCardsAt (moveCard ⟨[⟨"a", "A", [⟨"c1", "X"⟩, ⟨"c2", "Y"⟩]⟩,
          ⟨"b", "B", [⟨"d1", "D"⟩]⟩, ⟨"x", "X", []⟩]⟩
          "a" "b" "c1" (some 1)).board 0 = [⟨"c2", "Y"⟩] ∧
      List.Sublist
        (colCardsAt ⟨[⟨"a", "A", [⟨"c1", "X"⟩, ⟨"c2", "Y"⟩]⟩, ⟨"b", "B",
          [⟨"d1", "D"⟩]⟩, ⟨"x", "X", []⟩]⟩ 1)
        (colCardsAt (moveCard ⟨[⟨"a", "A", [⟨"c1", "X"⟩, ⟨"c2", "Y"⟩]⟩,
          ⟨"b", "B", [⟨"d1", "D"⟩]⟩, ⟨"x", "X", []⟩]⟩
          "a" "b" "c1" (some 1)).board 1)) :=
  moveCard_preserves_others
    ⟨[⟨"a", "A", [⟨"c1", "X"⟩, ⟨"c2", "Y"⟩]⟩, ⟨"b", "B", [⟨"d1", "D"⟩]⟩,
      ⟨"x", "X", []⟩]⟩ "a" "b" "c1" (some 1) 0 1 0 ⟨"c1", "X"⟩ [⟨"c2", "Y"⟩]
    (by decide) (by decide) (by decide)

/-- Claim C5: when fromId and toId resolve to two distinct columns (first
    matches at positions fi and ti), a move-column message marks the
    transaction dirty and repositions the column found for fromId by
    removing it and inserting it at ti — the dropped-on column's current
    position — so the moved column occupies index ti of the new ordering;
    no other insertion-index arithmetic is involved. -/
theorem moveColumn_repositions
    (b : Board) (fromId toId : String) (fi ti : Nat)
    (hfi : findIndexP (fun c => c.id == fromId) b.columns = some fi)
    (hti : findIndexP (fun c => c.id == toId) b.columns = some ti)
    (hne : fi ≠ ti) :
    (handleMessage b (.moveColumn fromId toId)).dirty = true ∧
    (handleMessage b (.moveColumn fromId toId)).board.columns
      = spliceInsert ti ((b.columns.get? fi).getD emptyColumn)
          (removeAt fi b.columns) ∧
    (handleMessage b (.moveColumn fromId toId)).board.columns.get? ti
      = some ((b.columns.get? fi).getD emptyColumn) := by
  have hred : handleMessage b (.moveColumn fromId toId)
      = ⟨⟨spliceInsert ti ((b.columns.get? fi).getD emptyColumn)
          (removeAt fi b.columns)⟩, true⟩ := by
    simp only [handleMessage, hfi, hti]
    simp [hne]
  refine ⟨by rw [hred], by rw [hred], ?_⟩
  rw [hred]
  obtain ⟨colF, hgetF, _⟩ := findIndexP_some hfi
  obtain ⟨colT, hgetT, _⟩ := findIndexP_some hti
  have hfl : fi < b.columns.length := get?_some_lt hgetF
  have htl : ti < b.columns.length := get?_some_lt hgetT
  have hrl : (removeAt fi b.columns).length + 1 = b.columns.length :=
    removeAt_length hfl
  exact spliceInsert_get?_self _ (by omega)

/-- Witness for C5: on the columns A, B, C, dropping column A on column B
    yields B, A, C — the moved column lands at B's former slot, index 1. -/
theorem moveColumn_repositions_witness :
    (handleMessage ⟨[⟨"A", "A", []⟩, ⟨"B", "B", []⟩, ⟨"C", "C", []⟩]⟩
        (.moveColumn "A" "B")).dirty = true ∧
    (handleMessage ⟨[⟨"A", "A", []⟩, ⟨"B", "B", []⟩, ⟨"C", "C", []⟩]⟩
        (.moveColumn "A" "B")).board.columns
      = spliceInsert 1
          (((Board.mk [⟨"A", "A", []⟩, ⟨"B", "B", []⟩,
            ⟨"C", "C", []⟩]).columns.get? 0).getD emptyColumn)
          (removeAt 0 (Board.mk [⟨"A", "A", []⟩, ⟨"B", "B", []⟩,
            ⟨"C", "C", []⟩]).columns) ∧
    (handleMessage ⟨[⟨"A", "A", []⟩, ⟨"B", "B", []⟩, ⟨"C", "C", []⟩]⟩
        (.moveColumn "A" "B")).board.columns.get? 1
      = some (((Board.mk [⟨"A", "A", []⟩, ⟨"B", "B", []⟩,
          ⟨"C", "C", []⟩]).columns.get? 0).getD emptyColumn) :=
  moveColumn_repositions ⟨[⟨"A", "A", []⟩, ⟨"B", "B", []⟩, ⟨"C", "C", []⟩]⟩
    "A" "B" 0 1 (by decide) (by decide) (by decide)

/-- Claim C4 counterexample: moveCard on a board where the destination
    column id does not resolve is not a silent no-op — the call throws a
    TypeError (threw = true) and the board is changed: the card has been
    removed from its source column and is not reinserted anywhere. -/
theorem moveCard_missing_ref_not_noop :
    (moveCard ⟨[⟨"a", "A", [⟨"c1", "X"⟩]⟩]⟩ "a" "zzz" "c1" (some 0)).threw
      = true ∧
    (moveCard ⟨[⟨"a", "A", [⟨"c1", "X"⟩]⟩]⟩ "a" "zzz" "c1" (some 0)).board
      ≠ ⟨[⟨"a", "A", [⟨"c1", "X"⟩]⟩]⟩ ∧
    (moveCard ⟨[⟨"a", "A", [⟨"c1", "X"⟩]⟩]⟩ "a" "zzz" "c1" (some 0)).board
      = ⟨[⟨"a", "A", []⟩]⟩ := by decide

/-- Claim C4 as amended: the five dispatcher mutations are silent no-ops
    (board unchanged, dirty flag false, hence no persistence) when a
    referenced identifier does not resolve, and moveCard is a silent no-op
    when the card id does not resolve in the source column; but moveCard
    with an unresolvable source column id throws with the board unchanged
    (an error is surfaced, though nothing is mutated). -/
theorem missing_ref_noop :
    (∀ (b : Board) (m : Msg), refMissing b m → handleMessage b m = ⟨b, false⟩) ∧
    (∀ (b : Board) (fromId toId cardId : String) (toIndex : Option Nat)
      (fi : Nat),
      findIndexP (fun c => c.id == fromId) b.columns = some fi →
      removeFirst (fun c => c.id == cardId) (colCardsAt b fi) = none →
      moveCard b fromId toId cardId toIndex = ⟨false, b⟩) ∧
    (∀ (b : Board) (fromId toId cardId : String) (toIndex : Option Nat),
      findIndexP (fun c => c.id == fromId) b.columns = none →
      moveCard b fromId toId cardId toIndex = ⟨true, b⟩) := by
  refine ⟨?_, ?_, ?_⟩
  · intro b m h
    cases m with
    | update d => exact absurd h id
    | deleteColumn cid =>
      simp only [refMissing] at h
      simp only [handleMessage, h]
    | renameColumn cid t =>
      simp only [refMissing] at h
      simp only [handleMessage, h]
    | addColumn p now => exact absurd h id
    | addCard cid p now =>
      simp only [refMissing] at h
      cases p with
      | none => simp only [handleMessage]
      | some title =>
        by_cases ht : title = ""
        · subst ht; simp [handleMessage]
        · simp only [handleMessage, h, if_neg ht]
    | deleteCard cid kid =>
      simp only [refMissing] at h
      rcases h with h | ⟨i, h1, h2⟩
      · simp only [handleMessage, h]
      · simp only [handleMessage, h1, h2]
    | moveColumn fromId toId =>
      simp only [refMissing] at h
      rcases h with h | h
      · simp only [handleMessage, h]
      · cases hf : findIndexP (fun c => c.id == fromId) b.columns with
        | none => simp only [handleMessage, hf]
        | some fi => simp only [handleMessage, hf, h]
  · intro b fromId toId cardId toIndex fi hfi hrm
    simp only [moveCard, hfi, hrm]
  · intro b fromId toId cardId toIndex hfi
    simp only [moveCard, hfi]

/-- Witness for the amended C4 at concrete inputs: a delete-column, a
    rename, a delete-card, a move-column and an add-card referencing ids
    that do not resolve all leave the board untouched and undirty, a
    moveCard with an unknown card id returns silently, and a moveCard with
    an unknown source column throws without mutating. -/
theorem missing_ref_noop_witness :
    handleMessage ⟨[⟨"a", "A", [⟨"c1", "X"⟩]⟩]⟩ (.deleteColumn "z")
      = ⟨⟨[⟨"a", "A", [⟨"c1", "X"⟩]⟩]⟩, false⟩ ∧
    handleMessage ⟨[⟨"a", "A", [⟨"c1", "X"⟩]⟩]⟩ (.renameColumn "z" "T")
      = ⟨⟨[⟨"a", "A", [⟨"c1", "X"⟩]⟩]⟩, false⟩ ∧
    handleMessage ⟨[⟨"a", "A", [⟨"c1", "X"⟩]⟩]⟩ (.deleteCard "a" "nope")
      = ⟨⟨[⟨"a", "A", [⟨"c1", "X"⟩]⟩]⟩, false⟩ ∧
    handleMessage ⟨[⟨"a", "A", [⟨"c1", "X"⟩]⟩]⟩ (.moveColumn "a" "z")
      = ⟨⟨[⟨"a", "A", [⟨"c1", "X"⟩]⟩]⟩, false⟩ ∧
    handleMessage ⟨[⟨"a", "A", [⟨"c1", "X"⟩]⟩]⟩ (.addCard "z" (some "T") 3)
      = ⟨⟨[⟨"a", "A", [⟨"c1", "X"⟩]⟩]⟩, false⟩ ∧
    moveCard ⟨[⟨"a", "A", [⟨"c1", "X"⟩]⟩]⟩ "a" "a" "nope" none
      = ⟨false, ⟨[⟨"a", "A", [⟨"c1", "X"⟩]⟩]⟩⟩ ∧
    moveCard ⟨[⟨"a", "A", [⟨"c1", "X"⟩]⟩]⟩ "zz" "a" "c1" none
      = ⟨true, ⟨[⟨"a", "A", [⟨"c1", "X"⟩]⟩]⟩⟩ := by
  have h := missing_ref_noop
  refine ⟨h.1 _ (.deleteColumn "z") (by simp only [refMissing]; decide),
    h.1 _ (.renameColumn "z" "T") (by simp only [refMissing]; decide),
    h.1 _ (.deleteCard "a" "nope") ?_,
    h.1 _ (.moveColumn "a" "z") ?_,
    h.1 _ (.addCard "z" (some "T") 3) (by simp only [refMissing]; decide),
    h.2.1 _ "a" "a" "nope" none 0 (by decide) (by decide),
    h.2.2 _ "zz" "a" "c1" none (by decide)⟩
  · exact Or.inr ⟨0, by decide, by decide⟩
  · exact Or.inr (by decide)

/-- Claim C6 counterexample: the dispatcher itself does not reject a blank
    newTitle — a rename-column message carrying a single space is applied,
    the column title becomes that blank string and the transaction is marked
    dirty, so the title is observably changed. -/
theorem rename_blank_applied_by_dispatcher :
    handleMessage ⟨[⟨"a", "A", []⟩]⟩ (.renameColumn "a" " ")
      = ⟨⟨[⟨"a", " ", []⟩]⟩, true⟩ ∧
    (handleMessage ⟨[⟨"a", "A", []⟩]⟩ (.renameColumn "a" " ")).board
      ≠ ⟨[⟨"a", "A", []⟩]⟩ := by decide

/-- Claim C6 as amended: blank rename attempts are rejected in the webview
    layer — when the edited text trims to the empty string, saveRename posts
    no rename-column message at all (so through the UI pathway the title
    stays unchanged), while the dispatcher applies whatever newTitle a
    rename-column message carries, blank included. -/
theorem saveRename_blank_rejected (entered : String) (col : Column)
    (h : jsTrim entered = "") : saveRename entered col = none := by
  simp [saveRename, h]

/-- Witness for the amended C6: a whitespace-only edit posts no message. -/
theorem saveRename_blank_rejected_witness :
    saveRename " \t " ⟨"a", "A", []⟩ = none :=
  saveRename_blank_rejected " \t " ⟨"a", "A", []⟩ (by decide)

/-- Claim C7 counterexample: the id generated for a new card does not
    combine a slug of the card's title with the timestamp — it is the fixed
    stem card- followed by the timestamp only, and differs from the
    slug-plus-timestamp shape the spec asserts. -/
theorem card_id_not_slug_based :
    colCardsAt (handleMessage ⟨[⟨"a", "A", []⟩]⟩
        (.addCard "a" (some "Alpha") 5)).board 0
      = [⟨"card-5", "Alpha"⟩] ∧
    "card-5" ≠ specGenId "Alpha" 5 ∧
    specGenId "Alpha" 5 = "alpha-5" := by decide

/-- Claim C7 as amended: a column created through add-column gets the id
    slugified-title dash timestamp (the spec's slug-plus-timestamp shape),
    while a card created through add-card gets the title-independent id
    card- followed by the timestamp. -/
theorem generated_ids :
    (∀ (b : Board) (title : String) (now : Nat), title ≠ "" →
      (handleMessage b (.addColumn (some title) now)).board.columns.map
          (fun c => c.id)
        = b.columns.map (fun c => c.id) ++ [specGenId title now]) ∧
    (∀ (b : Board) (cid title : String) (now i : Nat), title ≠ "" →
      findIndexP (fun c => c.id == cid) b.columns = some i →
      (colCardsAt (handleMessage b (.addCard cid (some title) now)).board
          i).map (fun k => k.id)
        = (colCardsAt b i).map (fun k => k.id) ++ ["card-" ++ Nat.repr now]) := by
  constructor
  · intro b title now ht
    simp only [handleMessage, if_neg ht]
    simp [specGenId]
  · intro b cid title now i ht hfi
    obtain ⟨col, hget, _⟩ := findIndexP_some hfi
    simp only [handleMessage, if_neg ht, hfi]
    have hcc := colCardsAt_modifyAt_self
      (fun c => c.withCards (c.cards ++ [⟨"card-" ++ Nat.repr now, title⟩]))
      hget
    rw [hcc, colCardsAt_of_get? hget]
    simp [Column.withCards]

/-- Witness for the amended C7: concrete column and card creations. -/
theorem generated_ids_witness :
    (handleMessage ⟨[⟨"a", "A", []⟩]⟩
        (.addColumn (some "My Col!") 42)).board.columns.map (fun c => c.id)
      = (Board.mk [⟨"a", "A", []⟩]).columns.map (fun c => c.id)
          ++ [specGenId "My Col!" 42] ∧
    (colCardsAt (handleMessage ⟨[⟨"a", "A", []⟩]⟩
        (.addCard "a" (some "Beta") 7)).board 0).map (fun k => k.id)
      = (colCardsAt ⟨[⟨"a", "A", []⟩]⟩ 0).map (fun k => k.id)
          ++ ["card-" ++ Nat.repr 7] := by
  have h := generated_ids
  exact ⟨h.1 ⟨[⟨"a", "A", []⟩]⟩ "My Col!" 42 (by decide),
    h.2 ⟨[⟨"a", "A", []⟩]⟩ "a" "Beta" 7 0 (by decide) (by decide)⟩

/-- Modelled from the code's control flow (lines 168-221): the handler reads
    and parses document.getText() when the message arrives, then awaits the
    title prompt, and when the prompt resolves it applies the mutation to
    that stale parse and overwrites the whole document with the result. The
    board current at prompt-resolution time (second argument) is never
    consulted — which is exactly the defect this claim is about. -/
def addCardAtPromptResolution (boardAtArrival _boardAtResolution : Board)
    (cid title : String) (now : Nat) : Board :=
  (handleMessage boardAtArrival (.addCard cid (some title) now)).board

/-- Claim C9 (code bug, evaluated at the failing input): an add-card message
    arrives on a board with one empty column a; while its prompt is pending,
    an interleaved add-card lands and makes card-1 current. When the prompt
    resolves, the code computes from the board captured at arrival, so the
    written document contains only card-2 — the interleaved card-1 is
    silently discarded. Computing against the prompt-resolution-time board,
    as the spec requires, would keep both cards. -/
theorem pending_prompt_uses_stale_board :
    (handleMessage ⟨[⟨"a", "A", []⟩]⟩ (.addCard "a" (some "Other") 1)).board
      = ⟨[⟨"a", "A", [⟨"card-1", "Other"⟩]⟩]⟩ ∧
    addCardAtPromptResolution ⟨[⟨"a", "A", []⟩]⟩
        ⟨[⟨"a", "A", [⟨"card-1", "Other"⟩]⟩]⟩ "a" "Mine" 2
      = ⟨[⟨"a", "A", [⟨"card-2", "Mine"⟩]⟩]⟩ ∧
    (handleMessage ⟨[⟨"a", "A", [⟨"card-1", "Other"⟩]⟩]⟩
        (.addCard "a" (some "Mine") 2)).board
      = ⟨[⟨"a", "A", [⟨"card-1", "Other"⟩, ⟨"card-2", "Mine"⟩]⟩]⟩ := by decide

/- ### The persisted document: JSON serialization and parsing.
   JSON.stringify(data, null, 2) and JSON.parse are host-runtime builtins,
   so they are modelled here from their specified behaviour. A serialized
   board uses only strings, arrays and objects, so the model covers exactly
   that sub-grammar of JSON; on it the model agrees with the builtins. -/

/-- JSON values of the board document sub-grammar. -/
inductive Json where
  | str (s : String)
  | arr (items : List Json)
  | obj (members : List (String × Json))
deriving Repr

/-- Lowercase hex digit, as JSON.stringify emits in control escapes. -/
def hexDigit (n : Nat) : Char :=
  match n with
  | 0 => '0' | 1 => '1' | 2 => '2' | 3 => '3' | 4 => '4'
  | 5 => '5' | 6 => '6' | 7 => '7' | 8 => '8' | 9 => '9'
  | 10 => 'a' | 11 => 'b' | 12 => 'c' | 13 => 'd' | 14 => 'e'
  | _ => 'f'

/-- Value of one hex digit accepted by a JSON \u escape. -/
def parseHex (c : Char) : Option Nat :=
  if '0' ≤ c ∧ c ≤ '9' then some (c.toNat - '0'.toNat)
  else if 'a' ≤ c ∧ c ≤ 'f' then some (c.toNat - 'a'.toNat + 10)
  else if 'A' ≤ c ∧ c ≤ 'F' then some (c.toNat - 'A'.toNat + 10)
  else none

/-- JSON.stringify escaping of a single string character: the two-character
    escapes for quote, backslash and the named control characters, \u00xx
    for the remaining control characters, and the character itself
    otherwise. -/
def escChar (c : Char) : List Char :=
  if c = '"' then ['\\', '"']
  else if c = '\\' then ['\\', '\\']
  else if c = '\n' then ['\\', 'n']
  else if c = '\r' then ['\\', 'r']
  else if c = '\t' then ['\\', 't']
  else if c = '\x08' then ['\\', 'b']
  else if c = '\x0c' then ['\\', 'f']
  else if c.toNat < 32 then
    ['\\', 'u', '0', '0', hexDigit (c.toNat / 16), hexDigit (c.toNat % 16)]
  else [c]

/-- Escape a character sequence, continuing with r. -/
def escapeTo : List Char → List Char → List Char
  | [], r => r
  | c :: cs, r => escChar c ++ escapeTo cs r

/-- A serialized JSON string literal (quotes included), continuing with r. -/
def printStringTo (s : String) (r : List Char) : List Char :=
  '"' :: escapeTo s.data ('"' :: r)

/-- Body of a JSON string literal after the opening quote: yields the
    decoded characters and the input after the closing quote. A model of
    the string lexer of JSON.parse; \u escapes that do not denote a unicode
    scalar value (lone surrogates) are rejected, which JSON.stringify never
    emits. -/
def parseStrBody : List Char → Option (List Char × List Char)
  | [] => none
  | c :: rest =>
    if c = '"' then some ([], rest)
    else if c = '\\' then
      match rest with
      | [] => none
      | e :: rest2 =>
        if e = '"' then (parseStrBody rest2).map (fun p => ('"' :: p.1, p.2))
        else if e = '\\' then
          (parseStrBody rest2).map (fun p => ('\\' :: p.1, p.2))
        else if e = '/' then
          (parseStrBody rest2).map (fun p => ('/' :: p.1, p.2))
        else if e = 'n' then
          (parseStrBody rest2).map (fun p => ('\n' :: p.1, p.2))
        else if e = 'r' then
          (parseStrBody rest2).map (fun p => ('\r' :: p.1, p.2))
        else if e = 't' then
          (parseStrBody rest2).map (fun p => ('\t' :: p.1, p.2))
        else if e = 'b' then
          (parseStrBody rest2).map (fun p => ('\x08' :: p.1, p.2))
        else if e = 'f' then
          (parseStrBody rest2).map (fun p => ('\x0c' :: p.1, p.2))
        else if e = 'u' then
          match rest2 with
          | h1 :: h2 :: h3 :: h4 :: rest3 =>
            match parseHex h1, parseHex h2, parseHex h3, parseHex h4 with
            | some a, some b, some c2, some d2 =>
              let n := ((a * 16 + b) * 16 + c2) * 16 + d2
              if Nat.isValidChar n then
                (parseStrBody rest3).map (fun p => (Char.ofNat n :: p.1, p.2))
              else none
            | _, _, _, _ => none
          | _ => none
        else none
    else if 32 ≤ c.toNat then (parseStrBody rest).map (fun p => (c :: p.1, p.2))
    else none

/-- The JSON whitespace characters. -/
def isWsChar (c : Char) : Bool := c = ' ' || c = '\n' || c = '\t' || c = '\r'

/-- Drop leading JSON whitespace. -/
def skipWs : List Char → List Char
  | [] => []
  | c :: cs => if isWsChar c then skipWs cs else c :: cs

mutual

/-- Recursive-descent JSON value parser over the document sub-grammar
    (strings, arrays, objects), a model of JSON.parse. The fuel argument
    only bounds nesting so the function is total; every use supplies at
    least the input length, which is ample. -/
def parseV : Nat → List Char → Option (Json × List Char)
  | 0, _ => none
  | fuel + 1, cs =>
    match skipWs cs with
    | '"' :: rest =>
      (parseStrBody rest).map (fun p => (Json.str (String.mk p.1), p.2))
    | '[' :: rest =>
      match skipWs rest with
      | ']' :: r => some (Json.arr [], r)
      | rest2 => (parseItems fuel rest2).map (fun p => (Json.arr p.1, p.2))
    | '\x7b' :: rest =>
      match skipWs rest with
      | '\x7d' :: r => some (Json.obj [], r)
      | rest2 => (parseMembers fuel rest2).map (fun p => (Json.obj p.1, p.2))
    | _ => none

/-- One-or-more comma-separated array items up to the closing bracket. -/
def parseItems : Nat → List Char → Option (List Json × List Char)
  | 0, _ => none
  | fuel + 1, cs =>
    match parseV fuel cs with
    | none => none
    | some (v, r) =>
      match skipWs r with
      | ',' :: r2 => (parseItems fuel r2).map (fun p => (v :: p.1, p.2))
      | ']' :: r2 => some ([v], r2)
      | _ => none

/-- One-or-more key colon value members up to the closing brace. -/
def parseMembers : Nat → List Char → Option (List (String × Json) × List Char)
  | 0, _ => none
  | fuel + 1, cs =>
    match skipWs cs with
    | '"' :: rest =>
      match parseStrBody rest with
      | none => none
      | some (k, r) =>
        match skipWs r with
        | ':' :: r2 =>
          match parseV fuel r2 with
          | none => none
          | some (v, r3) =>
            match skipWs r3 with
            | ',' :: r4 =>
              (parseMembers fuel r4).map
                (fun p => ((String.mk k, v) :: p.1, p.2))
            | '\x7d' :: r4 => some ([(String.mk k, v)], r4)
            | _ => none
        | _ => none
    | _ => none

end

/-- Top-level JSON.parse model: parse one value with ample fuel and require
    only trailing whitespace. -/
def parseJson (s : String) : Option Json :=
  match parseV (s.data.length + 1) s.data with
  | some (v, rest) => if skipWs rest = [] then some v else none
  | none => none

/-- JSON encoding of a card. -/
def encodeCard (c : Card) : Json :=
  .obj [("id", .str c.id), ("title", .str c.title)]

/-- JSON encoding of a column. -/
def encodeColumn (col : Column) : Json :=
  .obj [("id", .str col.id), ("title", .str col.title),
    ("cards", .arr (col.cards.map encodeCard))]

/-- JSON encoding of a board document. -/
def encodeBoard (b : Board) : Json :=
  .obj [("columns", .arr (b.columns.map encodeColumn))]

/-- First member of a JSON object with the given key, as JS property access
    reads the parsed object (the encodings above never repeat a key). -/
def jLookup (k : String) : List (String × Json) → Option Json
  | [] => none
  | (k2, v) :: rest => if k2 = k then some v else jLookup k rest

/-- The structural reads the code performs on a parsed card (c.id,
    c.title). -/
def decodeCard : Json → Option Card
  | .obj ms =>
    match jLookup "id" ms, jLookup "title" ms with
    | some (.str i), some (.str t) => some ⟨i, t⟩
    | _, _ => none
  | _ => none

/-- Decode each element of a parsed cards array. -/
def decodeCardList : List Json → Option (List Card)
  | [] => some []
  | x :: xs =>
    match decodeCard x, decodeCardList xs with
    | some c, some cs => some (c :: cs)
    | _, _ => none

/-- The structural reads the code performs on a parsed column (col.id,
    col.title, col.cards). -/
def decodeColumn : Json → Option Column
  | .obj ms =>
    match jLookup "id" ms, jLookup "title" ms, jLookup "cards" ms with
    | some (.str i), some (.str t), some (.arr xs) =>
      (decodeCardList xs).map (fun cs => ⟨i, t, cs⟩)
    | _, _, _ => none
  | _ => none

/-- Decode each element of a parsed columns array. -/
def decodeColumnList : List Json → Option (List Column)
  | [] => some []
  | x :: xs =>
    match decodeColumn x, decodeColumnList xs with
    | some c, some cs => some (c :: cs)
    | _, _ => none

/-- The structural reads the code performs on a parsed document
    (data.columns). -/
def decodeBoard : Json → Option Board
  | .obj ms =>
    match jLookup "columns" ms with
    | some (.arr xs) => (decodeColumnList xs).map Board.mk
    | _ => none
  | _ => none

/-- Two-space indentation at nesting depth d, continuing with r. -/
def indentTo (d : Nat) (r : List Char) : List Char :=
  match d with
  | 0 => r
  | n + 1 => ' ' :: ' ' :: indentTo n r

/-- JSON.stringify(card, null, 2) at depth d, continuing with r. -/
def printCardTo (d : Nat) (c : Card) (r : List Char) : List Char :=
  '\x7b' :: '\n' ::
    indentTo (d + 1) (printStringTo "id" (':' :: ' ' ::
      printStringTo c.id (',' :: '\n' ::
    indentTo (d + 1) (printStringTo "title" (':' :: ' ' ::
      printStringTo c.title ('\n' ::
    indentTo d ('\x7d' :: r)))))))

/-- Second and later items of a serialized cards array. -/
def printCardsTailTo (d : Nat) (cs : List Card) (r : List Char) : List Char :=
  match cs with
  | [] => r
  | c :: cs2 =>
    ',' :: '\n' :: indentTo d (printCardTo d c (printCardsTailTo d cs2 r))

/-- A serialized cards array at depth d ([] when empty, one item per line
    otherwise), continuing with r. -/
def printCardsTo (d : Nat) (cs : List Card) (r : List Char) : List Char :=
  match cs with
  | [] => '[' :: ']' :: r
  | c :: cs2 =>
    '[' :: '\n' ::
      indentTo (d + 1) (printCardTo (d + 1) c
        (printCardsTailTo (d + 1) cs2 ('\n' :: indentTo d (']' :: r))))

/-- JSON.stringify(column, null, 2) at depth d, continuing with r. -/
def printColumnTo (d : Nat) (col : Column) (r : List Char) : List Char :=
  '\x7b' :: '\n' ::
    indentTo (d + 1) (printStringTo "id" (':' :: ' ' ::
      printStringTo col.id (',' :: '\n' ::
    indentTo (d + 1) (printStringTo "title" (':' :: ' ' ::
      printStringTo col.title (',' :: '\n' ::
    indentTo (d + 1) (printStringTo "cards" (':' :: ' ' ::
      printCardsTo (d + 1) col.cards ('\n' ::
    indentTo d ('\x7d' :: r))))))))))

/-- Second and later items of a serialized columns array. -/
def printColumnsTailTo (d : Nat) (cs : List Column) (r : List Char) :
    List Char :=
  match cs with
  | [] => r
  | c :: cs2 =>
    ',' :: '\n' :: indentTo d (printColumnTo d c (printColumnsTailTo d cs2 r))

/-- A serialized columns array at depth d, continuing with r. -/
def printColumnsTo (d : Nat) (cs : List Column) (r : List Char) : List Char :=
  match cs with
  | [] => '[' :: ']' :: r
  | c :: cs2 =>
    '[' :: '\n' ::
      indentTo (d + 1) (printColumnTo (d + 1) c
        (printColumnsTailTo (d + 1) cs2 ('\n' :: indentTo d (']' :: r))))

/-- The serialized board document, continuing with r. -/
def printBoardTo (b : Board) (r : List Char) : List Char :=
  '\x7b' :: '\n' ::
    indentTo 1 (printStringTo "columns" (':' :: ' ' ::
      printColumnsTo 1 b.columns ('\n' :: '\x7d' :: r)))

/-- Model of JSON.stringify(data, null, 2) on a board document: the exact
    text the dispatcher writes back to the document on a committed
    mutation. -/
def stringifyBoard (b : Board) : String := String.mk (printBoardTo b [])

/-- The document load path: JSON.parse plus the structural field accesses
    the code performs on the parsed value. -/
def loadBoard (text : String) : Option Board :=
  match parseJson text with
  | some v => decodeBoard v
  | none => none

/-- Message handling at the document-text level (lines 168-261): parse the
    current text, returning without any write when the parse throws; for an
    update message the parsed value is discarded and the incoming board
    written wholesale; otherwise the handler works on the parsed board and,
    when the transaction is dirty, writes the reserialized board (a
    JSON-parsable but non-board-shaped document makes every such handler
    path throw on the data.columns dereference before any write, modelled
    by the decode failure). The result is the text written to the document,
    none when no write is attempted. -/
def handleText (text : String) (msg : Msg) : Option String :=
  match parseJson text with
  | none => none
  | some v =>
    match msg with
    | .update d => some (stringifyBoard d)
    | _ =>
      match decodeBoard v with
      | none => none
      | some b =>
        let r := handleMessage b msg
        if r.dirty then some (stringifyBoard r.board) else none

/- ### Round-trip lemmas: the parser recovers what the printer emits -/

theorem parseHex_hexDigit {n : Nat} (h : n < 16) :
    parseHex (hexDigit n) = some n := by
  revert h
  revert n
  decide

theorem parseStrBody_escape (l r : List Char) :
    parseStrBody (escapeTo l ('"' :: r)) = some (l, r) := by
  induction l with
  | nil =>
    rw [escapeTo, parseStrBody.eq_def]
    simp
  | cons c cs ih =>
    rw [escapeTo]
    by_cases h1 : c = '"'
    · subst h1
      rw [show escChar '"' = ['\\', '"'] from by decide]
      rw [parseStrBody.eq_def]
      simp [ih]
    · by_cases h2 : c = '\\'
      · subst h2
        rw [show escChar '\\' = ['\\', '\\'] from by decide]
        rw [parseStrBody.eq_def]
        simp [ih]
      · by_cases h3 : c = '\n'
        · subst h3
          rw [show escChar '\n' = ['\\', 'n'] from by decide]
          rw [parseStrBody.eq_def]
          simp [ih]
        · by_cases h4 : c = '\r'
          · subst h4
            rw [show escChar '\r' = ['\\', 'r'] from by decide]
            rw [parseStrBody.eq_def]
            simp [ih]
          · by_cases h5 : c = '\t'
            · subst h5
              rw [show escChar '\t' = ['\\', 't'] from by decide]
              rw [parseStrBody.eq_def]
              simp [ih]
            · by_cases h6 : c = '\x08'
              · subst h6
                rw [show escChar '\x08' = ['\\', 'b'] from by decide]
                rw [parseStrBody.eq_def]
                simp [ih]
              · by_cases h7 : c = '\x0c'
                · subst h7
                  rw [show escChar '\x0c' = ['\\', 'f'] from by decide]
                  rw [parseStrBody.eq_def]
                  simp [ih]
                · by_cases h8 : c.toNat < 32
                  · have e : escChar c = ['\\', 'u', '0', '0',
                        hexDigit (c.toNat / 16), hexDigit (c.toNat % 16)] := by
                      rw [escChar]
                      simp [h1, h2, h3, h4, h5, h6, h7, h8]
                    rw [e, parseStrBody.eq_def]
                    have hd1 : parseHex (hexDigit (c.toNat / 16))
                        = some (c.toNat / 16) := parseHex_hexDigit (by omega)
                    have hd2 : parseHex (hexDigit (c.toNat % 16))
                        = some (c.toNat % 16) := parseHex_hexDigit (by omega)
                    simp only [List.cons_append]
                    simp [show parseHex '0' = some 0 from by decide, hd1, hd2]
                    have hn : c.toNat / 16 * 16 + c.toNat % 16 = c.toNat := by
                      omega
                    rw [hn]
                    exact ⟨Or.inl (by omega), ih, Char.ofNat_toNat c⟩
                  · have e : escChar c = [c] := by
                      rw [escChar]
                      simp [h1, h2, h3, h4, h5, h6, h7, h8]
                    rw [e, parseStrBody.eq_def]
                    simp only [List.cons_append, List.nil_append]
                    simp [h1, h2, ih, Nat.le_of_not_lt (by exact h8)]

theorem skipWs_ws {c : Char} (cs : List Char) (h : isWsChar c = true) :
    skipWs (c :: cs) = skipWs cs := by simp [skipWs, h]

theorem skipWs_not {c : Char} (cs : List Char) (h : isWsChar c = false) :
    skipWs (c :: cs) = c :: cs := by simp [skipWs, h]

theorem skipWs_indentTo (d : Nat) (r : List Char) :
    skipWs (indentTo d r) = skipWs r := by
  induction d with
  | zero => rfl
  | succ n ih =>
    rw [indentTo, skipWs_ws _ (by decide), skipWs_ws _ (by decide), ih]

theorem mk_data (s : String) : String.mk s.data = s := rfl

theorem parseV_string (n : Nat) (s : String) (r : List Char) :
    parseV (n + 1) (printStringTo s r) = some (.str s, r) := by
  show parseV n.succ (printStringTo s r) = some (.str s, r)
  rw [parseV.eq_2, printStringTo, skipWs_not _ (by decide)]
  simp [parseStrBody_escape, mk_data]

theorem parseV_ws {cs cs' : List Char} (h : skipWs cs = skipWs cs') (n : Nat) :
    parseV n cs = parseV n cs' := by
  cases n with
  | zero => rfl
  | succ m => rw [parseV.eq_2, parseV.eq_2, h]

theorem parseItems_ws {cs cs' : List Char} (h : skipWs cs = skipWs cs')
    (n : Nat) : parseItems n cs = parseItems n cs' := by
  cases n with
  | zero => rfl
  | succ m => rw [parseItems.eq_2, parseItems.eq_2, parseV_ws h m]

theorem parseMembers_ws {cs cs' : List Char} (h : skipWs cs = skipWs cs')
    (n : Nat) : parseMembers n cs = parseMembers n cs' := by
  cases n with
  | zero => rfl
  | succ m => rw [parseMembers.eq_2, parseMembers.eq_2, h]

theorem parseV_sp_string (n : Nat) (s : String) (r : List Char) :
    parseV (n + 1) (' ' :: printStringTo s r) = some (.str s, r) := by
  have h : skipWs (' ' :: printStringTo s r) = skipWs (printStringTo s r) :=
    skipWs_ws _ (by decide)
  rw [parseV_ws h, parseV_string]

theorem parseV_nl (m d : Nat) (cs : List Char) :
    parseV m ('\n' :: indentTo d cs) = parseV m cs :=
  parseV_ws (by rw [skipWs_ws _ (by decide), skipWs_indentTo]) m

theorem parseItems_nl (m d : Nat) (cs : List Char) :
    parseItems m ('\n' :: indentTo d cs) = parseItems m cs :=
  parseItems_ws (by rw [skipWs_ws _ (by decide), skipWs_indentTo]) m

theorem parseMembers_nl (m d : Nat) (cs : List Char) :
    parseMembers m ('\n' :: indentTo d cs) = parseMembers m cs :=
  parseMembers_ws (by rw [skipWs_ws _ (by decide), skipWs_indentTo]) m

theorem parseV_sp (m : Nat) (cs : List Char) :
    parseV m (' ' :: cs) = parseV m cs :=
  parseV_ws (by rw [skipWs_ws _ (by decide)]) m

theorem parseMembers_str_last (n : Nat) (k v : String) (d : Nat)
    (r : List Char) :
    parseMembers (n + 2)
      (printStringTo k (':' :: ' ' :: printStringTo v
        ('\n' :: indentTo d ('\x7d' :: r))))
      = some ([(k, .str v)], r) := by
  show parseMembers (n + 1).succ _ = _
  rw [parseMembers.eq_2, printStringTo, skipWs_not _ (by decide)]
  simp only [parseStrBody_escape, mk_data]
  rw [skipWs_not _ (by decide)]
  simp only []
  rw [parseV_sp_string n v]
  simp only []
  rw [skipWs_ws _ (by decide), skipWs_indentTo, skipWs_not _ (by decide)]
  simp only []

theorem parseMembers_card (n d d2 : Nat) (i t : String) (r : List Char) :
    parseMembers (n + 3)
      (printStringTo "id" (':' :: ' ' :: printStringTo i (',' :: '\n' ::
        indentTo d (printStringTo "title" (':' :: ' ' :: printStringTo t
          ('\n' :: indentTo d2 ('\x7d' :: r)))))))
      = some ([("id", .str i), ("title", .str t)], r) := by
  show parseMembers (n + 2).succ _ = _
  rw [parseMembers.eq_2]
  rw [printStringTo, skipWs_not _ (by decide)]
  simp only [parseStrBody_escape, mk_data]
  rw [skipWs_not _ (by decide)]
  simp only []
  rw [show n + 2 = n + 1 + 1 from rfl, parseV_sp_string (n + 1)]
  simp only []
  rw [skipWs_not _ (by decide)]
  simp only []
  rw [parseMembers_nl]
  rw [parseMembers_str_last n]
  rfl

theorem skipWs_printStringTo (s : String) (r : List Char) :
    skipWs (printStringTo s r) = printStringTo s r :=
  skipWs_not _ (by decide)

theorem parseV_card (n d : Nat) (c : Card) (r : List Char) :
    parseV (n + 4) (printCardTo d c r) = some (encodeCard c, r) := by
  show parseV (n + 3).succ _ = _
  rw [parseV.eq_2, printCardTo, skipWs_not _ (by decide)]
  simp only []
  rw [skipWs_ws _ (by decide), skipWs_indentTo, skipWs_printStringTo]
  split
  · next heq =>
      rw [printStringTo] at heq
      simp at heq
  · rw [parseMembers_card n]
    rfl

theorem skipWs_printCardTo (d : Nat) (c : Card) (r : List Char) :
    skipWs (printCardTo d c r) = printCardTo d c r :=
  skipWs_not _ (by decide)

theorem parseItems_cards (cs : List Card) (n d d2 : Nat) (c : Card)
    (r : List Char) :
    parseItems (n + 5 * cs.length + 5)
      (printCardTo d c (printCardsTailTo d cs ('\n' :: indentTo d2 (']' :: r))))
      = some ((c :: cs).map encodeCard, r) := by
  induction cs generalizing n c with
  | nil =>
    show parseItems (n + 4).succ _ = _
    rw [parseItems.eq_2, printCardsTailTo, parseV_card]
    simp only []
    rw [skipWs_ws _ (by decide), skipWs_indentTo, skipWs_not _ (by decide)]
    rfl
  | cons c2 cs2 ih =>
    show parseItems (n + 5 * (cs2.length + 1) + 4).succ _ = _
    rw [parseItems.eq_2]
    rw [printCardsTailTo]
    rw [show n + 5 * (cs2.length + 1) + 4 = (n + 5 * cs2.length + 5) + 4
      from by ring]
    rw [parseV_card]
    simp only []
    rw [skipWs_not _ (by decide)]
    simp only []
    rw [parseItems_nl]
    rw [show n + 5 * cs2.length + 5 + 4 = (n + 4) + 5 * cs2.length + 5
      from by ring]
    rw [ih]
    rfl

theorem parseV_cards (n d : Nat) (cs : List Card) (r : List Char) :
    parseV (n + 5 * cs.length + 7) (printCardsTo d cs r)
      = some (.arr (cs.map encodeCard), r) := by
  cases cs with
  | nil =>
    show parseV (n + 6).succ _ = _
    rw [parseV.eq_2, printCardsTo, skipWs_not _ (by decide)]
    simp only []
    rw [skipWs_not _ (by decide)]
    rfl
  | cons c cs2 =>
    show parseV (n + 5 * cs2.length + 11).succ _ = _
    rw [parseV.eq_2, printCardsTo, skipWs_not _ (by decide)]
    simp only []
    rw [skipWs_ws _ (by decide), skipWs_indentTo, skipWs_printCardTo]
    split
    · next heq =>
        rw [printCardTo] at heq
        simp at heq
    · rw [show n + 5 * cs2.length + 11 = (n + 6) + 5 * cs2.length + 5
        from by ring]
      rw [parseItems_cards]
      rfl

theorem parseMembers_cards_last (n dc dcl : Nat) (cards : List Card)
    (r : List Char) :
    parseMembers (n + 5 * cards.length + 8)
      (printStringTo "cards" (':' :: ' ' :: printCardsTo dc cards ('\n' ::
        indentTo dcl ('\x7d' :: r))))
      = some ([("cards", .arr (cards.map encodeCard))], r) := by
  show parseMembers (n + 5 * cards.length + 7).succ _ = _
  rw [parseMembers.eq_2]
  rw [printStringTo, skipWs_not _ (by decide)]
  simp only [parseStrBody_escape, mk_data]
  rw [skipWs_not _ (by decide)]
  simp only []
  rw [parseV_sp, parseV_cards]
  simp only []
  rw [skipWs_ws _ (by decide), skipWs_indentTo, skipWs_not _ (by decide)]
  rfl

theorem parseMembers_title_cards (n dk dc dcl : Nat) (t : String)
    (cards : List Card) (r : List Char) :
    parseMembers (n + 5 * cards.length + 9)
      (printStringTo "title" (':' :: ' ' :: printStringTo t (',' :: '\n' ::
        indentTo dk (printStringTo "cards" (':' :: ' ' ::
          printCardsTo dc cards ('\n' :: indentTo dcl ('\x7d' :: r)))))))
      = some ([("title", .str t), ("cards", .arr (cards.map encodeCard))],
          r) := by
  show parseMembers (n + 5 * cards.length + 8).succ _ = _
  rw [parseMembers.eq_2]
  rw [printStringTo, skipWs_not _ (by decide)]
  simp only [parseStrBody_escape, mk_data]
  rw [skipWs_not _ (by decide)]
  simp only []
  rw [show n + 5 * cards.length + 8 = (n + 5 * cards.length + 7) + 1
    from by ring]
  rw [parseV_sp_string]
  simp only []
  rw [skipWs_not _ (by decide)]
  simp only []
  rw [parseMembers_nl]
  rw [show n + 5 * cards.length + 7 + 1 = n + 5 * cards.length + 8
    from by ring]
  rw [parseMembers_cards_last]
  rfl

theorem parseMembers_column (n dk dc dcl : Nat) (col : Column)
    (r : List Char) :
    parseMembers (n + 5 * col.cards.length + 10)
      (printStringTo "id" (':' :: ' ' :: printStringTo col.id (',' :: '\n' ::
        indentTo dk (printStringTo "title" (':' :: ' ' ::
          printStringTo col.title (',' :: '\n' ::
        indentTo dk (printStringTo "cards" (':' :: ' ' ::
          printCardsTo dc col.cards ('\n' ::
        indentTo dcl ('\x7d' :: r))))))))))
      = some ([("id", .str col.id), ("title", .str col.title),
          ("cards", .arr (col.cards.map encodeCard))], r) := by
  show parseMembers (n + 5 * col.cards.length + 9).succ _ = _
  rw [parseMembers.eq_2]
  rw [printStringTo, skipWs_not _ (by decide)]
  simp only [parseStrBody_escape, mk_data]
  rw [skipWs_not _ (by decide)]
  simp only []
  rw [show n + 5 * col.cards.length + 9 = (n + 5 * col.cards.length + 8) + 1
    from by ring]
  rw [parseV_sp_string]
  simp only []
  rw [skipWs_not _ (by decide)]
  simp only []
  rw [parseMembers_nl]
  rw [show n + 5 * col.cards.length + 8 + 1 = n + 5 * col.cards.length + 9
    from by ring]
  rw [parseMembers_title_cards]
  rfl

theorem parseV_column (n d : Nat) (col : Column) (r : List Char) :
    parseV (n + 5 * col.cards.length + 11) (printColumnTo d col r)
      = some (encodeColumn col, r) := by
  show parseV (n + 5 * col.cards.length + 10).succ _ = _
  rw [parseV.eq_2, printColumnTo, skipWs_not _ (by decide)]
  simp only []
  rw [skipWs_ws _ (by decide), skipWs_indentTo, skipWs_printStringTo]
  split
  · next heq =>
      rw [printStringTo] at heq
      simp at heq
  · rw [parseMembers_column]
    rfl

/-- Fuel consumed by the column items of a serialized columns array. -/
def colsFuel : List Column → Nat
  | [] => 0
  | c :: cs => 5 * c.cards.length + 16 + colsFuel cs

theorem skipWs_printColumnTo (d : Nat) (c : Column) (r : List Char) :
    skipWs (printColumnTo d c r) = printColumnTo d c r :=
  skipWs_not _ (by decide)

theorem parseItems_columns (cs : List Column) (n d d2 : Nat) (c : Column)
    (r : List Char) :
    parseItems (n + colsFuel (c :: cs))
      (printColumnTo d c
        (printColumnsTailTo d cs ('\n' :: indentTo d2 (']' :: r))))
      = some ((c :: cs).map encodeColumn, r) := by
  induction cs generalizing n c with
  | nil =>
    show parseItems (n + 5 * c.cards.length + 15).succ _ = _
    rw [parseItems.eq_2, printColumnsTailTo]
    rw [show n + 5 * c.cards.length + 15
      = (n + 4) + 5 * c.cards.length + 11 from by ring]
    rw [parseV_column]
    simp only []
    rw [skipWs_ws _ (by decide), skipWs_indentTo, skipWs_not _ (by decide)]
    rfl
  | cons c2 cs2 ih =>
    rw [show n + colsFuel (c :: c2 :: cs2)
      = ((n + 4 + colsFuel (c2 :: cs2)) + 5 * c.cards.length + 11) + 1
      from by simp [colsFuel]; ring]
    show parseItems
      ((n + 4 + colsFuel (c2 :: cs2)) + 5 * c.cards.length + 11).succ _ = _
    rw [parseItems.eq_2, printColumnsTailTo]
    rw [parseV_column]
    simp only []
    rw [skipWs_not _ (by decide)]
    simp only []
    rw [parseItems_nl]
    rw [show n + 4 + colsFuel (c2 :: cs2) + 5 * c.cards.length + 11
      = (n + 5 * c.cards.length + 15) + colsFuel (c2 :: cs2)
      from by ring]
    rw [ih]
    rfl

theorem parseV_columns (n d : Nat) (cs : List Column) (r : List Char) :
    parseV (n + colsFuel cs + 7) (printColumnsTo d cs r)
      = some (.arr (cs.map encodeColumn), r) := by
  cases cs with
  | nil =>
    show parseV (n + 6).succ _ = _
    rw [parseV.eq_2, printColumnsTo, skipWs_not _ (by decide)]
    simp only []
    rw [skipWs_not _ (by decide)]
    rfl
  | cons c cs2 =>
    rw [show n + colsFuel (c :: cs2) + 7
      = ((n + 6) + colsFuel (c :: cs2)) + 1 from by ring]
    show parseV ((n + 6) + colsFuel (c :: cs2)).succ _ = _
    rw [parseV.eq_2, printColumnsTo, skipWs_not _ (by decide)]
    simp only []
    rw [skipWs_ws _ (by decide), skipWs_indentTo, skipWs_printColumnTo]
    split
    · next heq =>
        rw [printColumnTo] at heq
        simp at heq
    · rw [parseItems_columns]
      rfl

theorem parseMembers_columns_last (n dc : Nat) (cols : List Column)
    (r : List Char) :
    parseMembers (n + colsFuel cols + 8)
      (printStringTo "columns" (':' :: ' ' :: printColumnsTo dc cols
        ('\n' :: '\x7d' :: r)))
      = some ([("columns", .arr (cols.map encodeColumn))], r) := by
  rw [show n + colsFuel cols + 8 = ((n + colsFuel cols + 7)) + 1 from by ring]
  show parseMembers (n + colsFuel cols + 7).succ _ = _
  rw [parseMembers.eq_2]
  rw [printStringTo, skipWs_not _ (by decide)]
  simp only [parseStrBody_escape, mk_data]
  rw [skipWs_not _ (by decide)]
  simp only []
  rw [parseV_sp, parseV_columns]
  simp only []
  rw [skipWs_ws _ (by decide), skipWs_not _ (by decide)]
  rfl

theorem parseV_board (n : Nat) (b : Board) (r : List Char) :
    parseV (n + colsFuel b.columns + 9) (printBoardTo b r)
      = some (encodeBoard b, r) := by
  rw [show n + colsFuel b.columns + 9
    = ((n + colsFuel b.columns + 8)) + 1 from by ring]
  show parseV (n + colsFuel b.columns + 8).succ _ = _
  rw [parseV.eq_2, printBoardTo, skipWs_not _ (by decide)]
  simp only []
  rw [skipWs_ws _ (by decide), skipWs_indentTo, skipWs_printStringTo]
  split
  · next heq =>
      rw [printStringTo] at heq
      simp at heq
  · rw [parseMembers_columns_last]
    rfl

/- ### Length bounds: the printed text is longer than the fuel it needs -/

theorem len_escapeTo (l r : List Char) :
    r.length ≤ (escapeTo l r).length := by
  induction l with
  | nil => simp [escapeTo]
  | cons c cs ih =>
    rw [escapeTo, List.length_append]
    omega

theorem len_printStringTo (s : String) (r : List Char) :
    r.length + 2 ≤ (printStringTo s r).length := by
  rw [printStringTo]
  have h := len_escapeTo s.data ('"' :: r)
  simp only [List.length_cons] at *
  omega

theorem len_indentTo (d : Nat) (r : List Char) :
    r.length ≤ (indentTo d r).length := by
  induction d with
  | zero => simp [indentTo]
  | succ n ih =>
    rw [indentTo]
    simp only [List.length_cons]
    omega

theorem len_printCardTo (d : Nat) (c : Card) (r : List Char) :
    r.length + 16 ≤ (printCardTo d c r).length := by
  rw [printCardTo]
  have h1 := len_indentTo d ('\x7d' :: r)
  have h2 := len_printStringTo c.title ('\n' :: indentTo d ('\x7d' :: r))
  have h3 := len_indentTo (d + 1) (printStringTo "title" (':' :: ' ' ::
    printStringTo c.title ('\n' :: indentTo d ('\x7d' :: r))))
  have h4 := len_printStringTo "title" (':' :: ' ' ::
    printStringTo c.title ('\n' :: indentTo d ('\x7d' :: r)))
  have h5 := len_printStringTo c.id (',' :: '\n' ::
    indentTo (d + 1) (printStringTo "title" (':' :: ' ' ::
      printStringTo c.title ('\n' :: indentTo d ('\x7d' :: r)))))
  have h6 := len_printStringTo "id" (':' :: ' ' ::
    printStringTo c.id (',' :: '\n' ::
    indentTo (d + 1) (printStringTo "title" (':' :: ' ' ::
      printStringTo c.title ('\n' :: indentTo d ('\x7d' :: r))))))
  have h7 := len_indentTo (d + 1) (printStringTo "id" (':' :: ' ' ::
    printStringTo c.id (',' :: '\n' ::
    indentTo (d + 1) (printStringTo "title" (':' :: ' ' ::
      printStringTo c.title ('\n' :: indentTo d ('\x7d' :: r)))))))
  simp only [List.length_cons] at *
  omega

theorem len_printCardsTailTo (d : Nat) (cs : List Card) (r : List Char) :
    r.length + 5 * cs.length ≤ (printCardsTailTo d cs r).length := by
  induction cs with
  | nil => simp [printCardsTailTo]
  | cons c cs2 ih =>
    rw [printCardsTailTo]
    have h1 := len_printCardTo d c (printCardsTailTo d cs2 r)
    have h2 := len_indentTo d (printCardTo d c (printCardsTailTo d cs2 r))
    simp only [List.length_cons] at *
    omega

theorem len_printCardsTo (d : Nat) (cs : List Card) (r : List Char) :
    r.length + 5 * cs.length + 2 ≤ (printCardsTo d cs r).length := by
  cases cs with
  | nil => simp [printCardsTo]
  | cons c cs2 =>
    rw [printCardsTo]
    have h1 := len_indentTo d (']' :: r)
    have h2 := len_printCardsTailTo (d + 1) cs2
      ('\n' :: indentTo d (']' :: r))
    have h3 := len_printCardTo (d + 1) c
      (printCardsTailTo (d + 1) cs2 ('\n' :: indentTo d (']' :: r)))
    have h4 := len_indentTo (d + 1) (printCardTo (d + 1) c
      (printCardsTailTo (d + 1) cs2 ('\n' :: indentTo d (']' :: r))))
    simp only [List.length_cons] at *
    omega

theorem len_printColumnTo (d : Nat) (col : Column) (r : List Char) :
    r.length + 5 * col.cards.length + 16 ≤ (printColumnTo d col r).length := by
  rw [printColumnTo]
  have h1 := len_indentTo d ('\x7d' :: r)
  have h2 := len_printCardsTo (d + 1) col.cards
    ('\n' :: indentTo d ('\x7d' :: r))
  have h3 := len_printStringTo "cards" (':' :: ' ' ::
    printCardsTo (d + 1) col.cards ('\n' :: indentTo d ('\x7d' :: r)))
  have h4 := len_indentTo (d + 1) (printStringTo "cards" (':' :: ' ' ::
    printCardsTo (d + 1) col.cards ('\n' :: indentTo d ('\x7d' :: r))))
  have h5 := len_printStringTo col.title (',' :: '\n' ::
    indentTo (d + 1) (printStringTo "cards" (':' :: ' ' ::
    printCardsTo (d + 1) col.cards ('\n' :: indentTo d ('\x7d' :: r)))))
  have h6 := len_printStringTo "title" (':' :: ' ' ::
    printStringTo col.title (',' :: '\n' ::
    indentTo (d + 1) (printStringTo "cards" (':' :: ' ' ::
    printCardsTo (d + 1) col.cards ('\n' :: indentTo d ('\x7d' :: r))))))
  have h7 := len_indentTo (d + 1) (printStringTo "title" (':' :: ' ' ::
    printStringTo col.title (',' :: '\n' ::
    indentTo (d + 1) (printStringTo "cards" (':' :: ' ' ::
    printCardsTo (d + 1) col.cards ('\n' :: indentTo d ('\x7d' :: r)))))))
  have h8 := len_printStringTo col.id (',' :: '\n' ::
    indentTo (d + 1) (printStringTo "title" (':' :: ' ' ::
    printStringTo col.title (',' :: '\n' ::
    indentTo (d + 1) (printStringTo "cards" (':' :: ' ' ::
    printCardsTo (d + 1) col.cards ('\n' :: indentTo d ('\x7d' :: r))))))))
  have h9 := len_printStringTo "id" (':' :: ' ' ::
    printStringTo col.id (',' :: '\n' ::
    indentTo (d + 1) (printStringTo "title" (':' :: ' ' ::
    printStringTo col.title (',' :: '\n' ::
    indentTo (d + 1) (printStringTo "cards" (':' :: ' ' ::
    printCardsTo (d + 1) col.cards ('\n' :: indentTo d ('\x7d' :: r)))))))))
  have h10 := len_indentTo (d + 1) (printStringTo "id" (':' :: ' ' ::
    printStringTo col.id (',' :: '\n' ::
    indentTo (d + 1) (printStringTo "title" (':' :: ' ' ::
    printStringTo col.title (',' :: '\n' ::
    indentTo (d + 1) (printStringTo "cards" (':' :: ' ' ::
    printCardsTo (d + 1) col.cards ('\n' :: indentTo d ('\x7d' :: r))))))))))
  simp only [List.length_cons] at *
  omega

theorem len_printColumnsTailTo (d : Nat) (cs : List Column) (r : List Char) :
    r.length + colsFuel cs ≤ (printColumnsTailTo d cs r).length := by
  induction cs with
  | nil => simp [printColumnsTailTo, colsFuel]
  | cons c cs2 ih =>
    rw [printColumnsTailTo, colsFuel]
    have h1 := len_printColumnTo d c (printColumnsTailTo d cs2 r)
    have h2 := len_indentTo d (printColumnTo d c (printColumnsTailTo d cs2 r))
    simp only [List.length_cons] at *
    omega

theorem len_printColumnsTo (d : Nat) (cs : List Column) (r : List Char) :
    r.length + colsFuel cs + 2 ≤ (printColumnsTo d cs r).length := by
  cases cs with
  | nil => simp [printColumnsTo, colsFuel]
  | cons c cs2 =>
    rw [printColumnsTo, colsFuel]
    have h1 := len_indentTo d (']' :: r)
    have h2 := len_printColumnsTailTo (d + 1) cs2
      ('\n' :: indentTo d (']' :: r))
    have h3 := len_printColumnTo (d + 1) c
      (printColumnsTailTo (d + 1) cs2 ('\n' :: indentTo d (']' :: r)))
    have h4 := len_indentTo (d + 1) (printColumnTo (d + 1) c
      (printColumnsTailTo (d + 1) cs2 ('\n' :: indentTo d (']' :: r))))
    simp only [List.length_cons] at *
    omega

theorem len_printBoardTo (b : Board) (r : List Char) :
    r.length + colsFuel b.columns + 9 ≤ (printBoardTo b r).length := by
  rw [printBoardTo]
  have h1 := len_printColumnsTo 1 b.columns ('\n' :: '\x7d' :: r)
  have h2 := len_printStringTo "columns" (':' :: ' ' ::
    printColumnsTo 1 b.columns ('\n' :: '\x7d' :: r))
  have h3 := len_indentTo 1 (printStringTo "columns" (':' :: ' ' ::
    printColumnsTo 1 b.columns ('\n' :: '\x7d' :: r)))
  simp only [List.length_cons] at *
  omega

/- ### Decoding recovers the encoded board -/

theorem decodeCard_encodeCard (c : Card) :
    decodeCard (encodeCard c) = some c := by
  rw [encodeCard, decodeCard]
  rw [jLookup, if_pos rfl]
  rw [jLookup, if_neg (by decide), jLookup, if_pos rfl]

theorem decodeCardList_map (cs : List Card) :
    decodeCardList (cs.map encodeCard) = some cs := by
  induction cs with
  | nil => rfl
  | cons c cs2 ih =>
    rw [List.map_cons, decodeCardList, decodeCard_encodeCard, ih]

theorem decodeColumn_encodeColumn (col : Column) :
    decodeColumn (encodeColumn col) = some col := by
  rw [encodeColumn, decodeColumn]
  rw [jLookup, if_pos rfl]
  rw [jLookup, if_neg (by decide), jLookup, if_pos rfl]
  rw [jLookup, if_neg (by decide), jLookup, if_neg (by decide),
    jLookup, if_pos rfl]
  simp only []
  rw [decodeCardList_map]
  rfl

theorem decodeColumnList_map (cs : List Column) :
    decodeColumnList (cs.map encodeColumn) = some cs := by
  induction cs with
  | nil => rfl
  | cons c cs2 ih =>
    rw [List.map_cons, decodeColumnList, decodeColumn_encodeColumn, ih]

theorem decodeBoard_encodeBoard (b : Board) :
    decodeBoard (encodeBoard b) = some b := by
  rw [encodeBoard, decodeBoard]
  rw [jLookup, if_pos rfl]
  simp only []
  rw [decodeColumnList_map]
  rfl

/-- Claim C3: serializing any board with the store's serializer — the model
    of JSON.stringify(board, null, 2) — and reparsing the resulting text
    with the model of JSON.parse yields exactly the board's JSON value, and
    reading it back through the load path yields a board equal to the
    original: same columns and cards, same order, same ids and titles. -/
theorem stringify_parse_round_trip (b : Board) :
    parseJson (stringifyBoard b) = some (encodeBoard b) ∧
    loadBoard (stringifyBoard b) = some b := by
  have hstep : parseJson (stringifyBoard b) = some (encodeBoard b) := by
    rw [parseJson]
    have hdata : (stringifyBoard b).data = printBoardTo b [] := rfl
    rw [hdata]
    have hlen := len_printBoardTo b []
    simp only [List.length_nil] at hlen
    rw [show (printBoardTo b []).length + 1
      = ((printBoardTo b []).length - colsFuel b.columns - 8)
        + colsFuel b.columns + 9 from by omega]
    rw [parseV_board]
    rfl
  refine ⟨hstep, ?_⟩
  rw [loadBoard, hstep]
  simp only []
  rw [decodeBoard_encodeBoard]

/-- Claim C8: when the document text does not parse, handling any incoming
    message attempts no write at all: the dispatcher path is never reached
    and the document (hence the previously rendered board) is left as it
    was. -/
theorem parse_failure_noop (text : String) (msg : Msg)
    (h : parseJson text = none) : handleText text msg = none := by
  rw [handleText, h]

/-- Witness for C8: a lone opening brace does not parse, and handling a
    delete-column message on it writes nothing. -/
theorem parse_failure_noop_witness :
    parseJson "\x7b" = none ∧
    handleText "\x7b" (.deleteColumn "a") = none := by
  have h : parseJson "\x7b" = none := by rfl
  exact ⟨h, parse_failure_noop "\x7b" (.deleteColumn "a") h⟩

end TodoBoard
